import Mathlib

/-!
Shallow embedding of the mock-firestore field-transform engine.

Source of truth: src/mockfirestore/transforms.py.  The helper module
mockfirestore._helpers (get_by_path, set_by_path, get_document_iterator) is not
part of the sources; those three functions are modelled from the specification
(spec sections 4.1 and 4.2), as marked on their doc comments.

Modelling choices:
* Python values are the inductive type Value.  Documents and update payloads
  are insertion-ordered association lists (Python dicts preserve insertion
  order); duplicate keys never arise from dict operations but the embedding
  does not assume their absence.
* Numeric values carry an is-float tag and an exact integer magnitude; the tag
  models Python's int/float distinction (numeric promotion), the magnitude
  models the arithmetic the claims speak about.  Python bools are a separate
  constructor, but (as in Python, where bool is a subclass of int) they are
  accepted wherever isinstance(x, (int, float)) holds.
* Python exceptions are the error side of Except: KeyError, TypeError
  (the spec's PathNotFound and TypeShapeError), ValueError (the spec's
  InvalidOperand).
* list(set(item).difference(set(values))) is modelled as deduplication followed
  by membership filtering, both under Python value equality (1 == 1.0 == True,
  modelled by comparing numeric normal forms); the iteration order of a Python
  set is unspecified, the embedding fixes one concrete order (first occurrence
  kept, as CPython sets do).  Claims about this result are set-level, so the
  chosen order never decides a claim.
* get_document_iterator is modelled as the flattened snapshot of the payload
  taken when iteration starts, per the spec's description of the iterator as a
  stateless, restartable producer of (dotted-path, leaf) pairs.
-/

namespace MockFirestore

/-- Python exception kinds that the transform engine can raise. -/
inductive PyErr where
  | keyError
  | typeError
  | valueError
  deriving DecidableEq

/-- Python values as they occur in mock-firestore documents and update
payloads.  The five t-constructors are the transform instruction objects of
src/mockfirestore/transforms.py (ArrayUnion, ArrayRemove, Increment, Maximum,
Minimum); their operands are stored already validated. -/
inductive Value where
  | num : Bool → Int → Value
  | str : String → Value
  | boolV : Bool → Value
  | nullV : Value
  | arr : List Value → Value
  | map : List (String × Value) → Value
  | tIncrement : Bool → Int → Value
  | tMaximum : Bool → Int → Value
  | tMinimum : Bool → Int → Value
  | tArrayUnion : List Value → Value
  | tArrayRemove : List Value → Value

/-- A document or payload: an insertion-ordered association list, the model of
a Python dict. -/
abbrev Doc := List (String × Value)

mutual

/-- Structural equality test on Value: the Lean-level decidable equality the
embedding's theorems are stated with.  It is finer than Python ==, which
identifies numeric kinds and is modelled separately by pyEq below. -/
def beqV : Value → Value → Bool
  | .num b1 v1, .num b2 v2 => b1 == b2 && v1 == v2
  | .str s1, .str s2 => s1 == s2
  | .boolV b1, .boolV b2 => b1 == b2
  | .nullV, .nullV => true
  | .arr xs, .arr ys => beqL xs ys
  | .map m1, .map m2 => beqM m1 m2
  | .tIncrement b1 v1, .tIncrement b2 v2 => b1 == b2 && v1 == v2
  | .tMaximum b1 v1, .tMaximum b2 v2 => b1 == b2 && v1 == v2
  | .tMinimum b1 v1, .tMinimum b2 v2 => b1 == b2 && v1 == v2
  | .tArrayUnion xs, .tArrayUnion ys => beqL xs ys
  | .tArrayRemove xs, .tArrayRemove ys => beqL xs ys
  | _, _ => false

/-- Equality test on lists of values. -/
def beqL : List Value → List Value → Bool
  | [], [] => true
  | x :: xs, y :: ys => beqV x y && beqL xs ys
  | _, _ => false

/-- Equality test on association lists. -/
def beqM : List (String × Value) → List (String × Value) → Bool
  | [], [] => true
  | (k1, v1) :: xs, (k2, v2) :: ys => k1 == k2 && beqV v1 v2 && beqM xs ys
  | _, _ => false

end

set_option maxHeartbeats 1000000 in
instance : DecidableEq Value := fun a b =>
  decidable_of_iff (beqV a b = true)
    (by
      suffices h : (∀ a b : Value, beqV a b = true ↔ a = b) ∧
          (∀ m1 m2 : List (String × Value), beqM m1 m2 = true ↔ m1 = m2) ∧
          (∀ xs ys : List Value, beqL xs ys = true ↔ xs = ys) by
        exact h.1 a b
      apply beqV.mutual_induct
      · intro b1 v1 b2 v2; simp [beqV]
      · intro s1 s2; simp [beqV]
      · intro b1 b2; simp [beqV]
      · simp [beqV]
      · intro xs ys ih; simp [beqV, ih]
      · intro m1 m2 ih; simp [beqV, ih]
      · intro b1 v1 b2 v2; simp [beqV]
      · intro b1 v1 b2 v2; simp [beqV]
      · intro b1 v1 b2 v2; simp [beqV]
      · intro xs ys ih; simp [beqV, ih]
      · intro xs ys ih; simp [beqV, ih]
      · intro t u h1 h2 h3 h4 h5 h6 h7 h8 h9 h10 h11
        cases t <;> cases u <;>
          first
            | exact (h1 _ _ _ _ rfl rfl).elim
            | exact (h2 _ _ rfl rfl).elim
            | exact (h3 _ _ rfl rfl).elim
            | exact (h4 rfl rfl).elim
            | exact (h5 _ _ rfl rfl).elim
            | exact (h6 _ _ rfl rfl).elim
            | exact (h7 _ _ _ _ rfl rfl).elim
            | exact (h8 _ _ _ _ rfl rfl).elim
            | exact (h9 _ _ _ _ rfl rfl).elim
            | exact (h10 _ _ rfl rfl).elim
            | exact (h11 _ _ rfl rfl).elim
            | exact iff_of_false (fun hb => Bool.noConfusion hb) (fun he => Value.noConfusion he)
      · simp [beqL]
      · intro x xs y ys ih1 ih2; simp [beqL, ih1, ih2]
      · intro t u h1 h2
        cases t <;> cases u <;>
          first
            | exact (h1 rfl rfl).elim
            | exact (h2 _ _ _ _ rfl rfl).elim
            | exact iff_of_false (fun hb => Bool.noConfusion hb) (fun he => List.noConfusion he)
      · simp [beqM]
      · intro k1 v1 xs k2 v2 ys ih1 ih2; simp [beqM, ih1, ih2]
      · intro t u h1 h2
        cases t <;> cases u <;>
          first
            | exact (h1 rfl rfl).elim
            | exact (h2 _ _ _ _ _ _ rfl rfl).elim
            | exact iff_of_false (fun hb => Bool.noConfusion hb) (fun he => List.noConfusion he))


instance {ε α : Type} [DecidableEq ε] [DecidableEq α] : DecidableEq (Except ε α) :=
  fun a b =>
    match a, b with
    | .ok x, .ok y => decidable_of_iff (x = y) (by simp)
    | .error e, .error f => decidable_of_iff (e = f) (by simp)
    | .ok _, .error _ => isFalse (fun h => Except.noConfusion h)
    | .error _, .ok _ => isFalse (fun h => Except.noConfusion h)

/-- Model of Python key.split on the separator dot, as used at
src/mockfirestore/transforms.py (path = key.split(".")). -/
def splitDotsAux : List Char → List Char → List String
  | [], acc => [String.mk acc.reverse]
  | c :: rest, acc =>
    if c = '.' then String.mk acc.reverse :: splitDotsAux rest []
    else splitDotsAux rest (c :: acc)

/-- Split a dotted key into its path segments, Python str.split("."). -/
def splitDots (s : String) : List String := splitDotsAux s.data []

/-- First-match lookup in an association list: Python dict read. -/
def lookup : Doc → String → Option Value
  | [], _ => none
  | (k1, v) :: rest, k => if k1 = k then some v else lookup rest k

/-- Python dict assignment: replace the first binding of the key in place,
append a new binding otherwise (insertion order preserved). -/
def setKey : Doc → String → Value → Doc
  | [], k, v => [(k, v)]
  | (k1, w) :: rest, k, v =>
    if k1 = k then (k, v) :: rest else (k1, w) :: setKey rest k v

/-- Modelled from the spec: read of mockfirestore._helpers.get_by_path
(spec 4.1), recursing on the path through a Value.  An absent segment raises
KeyError (PathNotFound); descending through a non-mapping raises TypeError
(TypeShapeError). -/
def get_by_path_v : Value → List String → Except PyErr Value
  | v, [] => .ok v
  | .map m, k :: rest =>
    match lookup m k with
    | some w => get_by_path_v w rest
    | none => .error .keyError
  | _, _ :: _ => .error .typeError

/-- Modelled from the spec: mockfirestore._helpers.get_by_path applied to a
document (spec 4.1). -/
def get_by_path (document : Doc) (path : List String) : Except PyErr Value :=
  get_by_path_v (.map document) path

/-- Modelled from the spec: mockfirestore._helpers.set_by_path with nested
creation (spec 4.1): walks the path, creating an empty mapping at any missing
intermediate segment, raises TypeError when an existing intermediate is a
non-mapping, then sets the leaf. -/
def set_by_path : Doc → List String → Value → Except PyErr Doc
  | _, [], _ => .error .typeError
  | m, [k], v => .ok (setKey m k v)
  | m, k :: k2 :: rest, v =>
    match lookup m k with
    | some (.map sub) =>
      match set_by_path sub (k2 :: rest) v with
      | .ok sub2 => .ok (setKey m k (.map sub2))
      | .error e => .error e
    | some _ => .error .typeError
    | none =>
      match set_by_path [] (k2 :: rest) v with
      | .ok sub2 => .ok (setKey m k (.map sub2))
      | .error e => .error e

/-- Dotted-key concatenation used by the document iterator. -/
def joinKey (pre k : String) : String := if pre = "" then k else pre ++ "." ++ k

/-- Recogniser for transform instruction objects: the model of both
isinstance(value, _Transform) and the class-name heuristic of
src/mockfirestore/transforms.py lines 150-166 (in this closed embedding the
two coincide). -/
def isTransform : Value → Bool
  | .tIncrement _ _ => true
  | .tMaximum _ _ => true
  | .tMinimum _ _ => true
  | .tArrayUnion _ => true
  | .tArrayRemove _ => true
  | _ => false

mutual

/-- Modelled from the spec: mockfirestore._helpers.get_document_iterator
(spec 4.2): depth-first flattening of a payload into (dotted-path, leaf)
pairs; descends only into nested mappings, transforms and sequences are
leaves; keys in insertion order.  Modelled as the snapshot taken when
iteration starts. -/
def get_document_iterator : String → Doc → List (String × Value)
  | _, [] => []
  | pre, (k, v) :: rest => entry_iter pre k v ++ get_document_iterator pre rest

/-- One payload entry of get_document_iterator. -/
def entry_iter : String → String → Value → List (String × Value)
  | pre, k, .map sub => get_document_iterator (joinKey pre k) sub
  | pre, k, v => [(joinKey pre k, v)]

end

/-- Python bool coerced to int, as + does on bools. -/
def boolInt (b : Bool) : Int := if b then 1 else 0

/-- Model of Python + on the values this engine can add: numeric addition with
float promotion (result is a float iff either operand is one), bool as int,
sequence and string concatenation; anything else raises TypeError. -/
def pyAdd : Value → Value → Except PyErr Value
  | .num f1 v1, .num f2 v2 => .ok (.num (f1 || f2) (v1 + v2))
  | .num f1 v1, .boolV b2 => .ok (.num f1 (v1 + boolInt b2))
  | .boolV b1, .num f2 v2 => .ok (.num f2 (boolInt b1 + v2))
  | .boolV b1, .boolV b2 => .ok (.num false (boolInt b1 + boolInt b2))
  | .str s1, .str s2 => .ok (.str (s1 ++ s2))
  | .arr xs, .arr ys => .ok (.arr (xs ++ ys))
  | _, _ => .error .typeError

/-- Numeric magnitude of a numeric-like value (0 on other values; only applied
under an isNumeric guard). -/
def numVal : Value → Int
  | .num _ v => v
  | .boolV b => boolInt b
  | _ => 0

/-- Model of isinstance(item, (float, int)); true on bools as well, since
Python bool is a subclass of int. -/
def isNumeric : Value → Bool
  | .num _ _ => true
  | .boolV _ => true
  | _ => false

/-- Python max of two numeric-like values: returns the second argument only
when it is strictly greater, the first on ties. -/
def pyMax (a b : Value) : Value := if numVal a < numVal b then b else a

/-- Python min of two numeric-like values: returns the second argument only
when it is strictly smaller, the first on ties. -/
def pyMin (a b : Value) : Value := if numVal b < numVal a then b else a

/-- Hashability of a Value: Python lists and dicts are unhashable, scalars
(and instruction objects, hashed by identity) are hashable. -/
def hashable : Value → Bool
  | .arr _ => false
  | .map _ => false
  | _ => true

mutual

/-- Normal form of a Value under Python value equality: Python's == (and the
matching hashes used by sets and dicts) identify 1, 1.0 and True, so every
numeric-like value is mapped to an untagged integer; containers normalize
elementwise (a dead branch for set machinery, since lists and dicts are
unhashable and never reach an equality test there).  Instruction objects are
left untouched: Python compares them by identity, for which structural
equality of the embedding's terms is the stand-in. -/
def pyNormalize : Value → Value
  | .num _ v => .num false v
  | .boolV b => .num false (boolInt b)
  | .arr xs => .arr (pyNormalizeL xs)
  | .map m => .map (pyNormalizeM m)
  | v => v

/-- Elementwise normalization of a list of values. -/
def pyNormalizeL : List Value → List Value
  | [] => []
  | x :: xs => pyNormalize x :: pyNormalizeL xs

/-- Elementwise normalization of an association list. -/
def pyNormalizeM : List (String × Value) → List (String × Value)
  | [] => []
  | (k, v) :: rest => (k, pyNormalize v) :: pyNormalizeM rest

end

/-- Model of Python ==: equality of normal forms, so 1 == 1.0 == True while
distinct kinds (numbers, strings, None) stay distinct. -/
def pyEq (a b : Value) : Bool := decide (pyNormalize a = pyNormalize b)

/-- Membership test under Python ==, the model of membership in a Python set
built from the list. -/
def pyMemB (x : Value) (l : List Value) : Bool := l.any (pyEq x)

/-- Worker for dedupPy: seen holds the representatives already kept. -/
def dedupPyAux (seen : List Value) : List Value → List Value
  | [] => []
  | x :: xs =>
    if pyMemB x seen then dedupPyAux seen xs
    else x :: dedupPyAux (x :: seen) xs

/-- Deduplication of a list of values under Python ==, the model of passing a
list through a Python set: one element per Python equality class, keeping the
first occurrence as CPython sets do (the concrete order is the embedding's
choice, a set's iteration order being unspecified). -/
def dedupPy (l : List Value) : List Value := dedupPyAux [] l

/-- The elements Python obtains by iterating a value: a list yields its
elements, a string its one-character substrings, a dict its keys; other
values are not iterable. -/
def iterElems : Value → Option (List Value)
  | .arr xs => some xs
  | .str s => some (s.data.map fun c => .str (String.mk [c]))
  | .map m => some (m.map fun kv => .str kv.1)
  | _ => none

/-- The try/except pattern of the transform variants: read the document at the
path, fall back to a default when get_by_path raises TypeError or KeyError
(transforms.py catches both). -/
def get_or_default (document : Doc) (path : List String) (dflt : Value) : Value :=
  match get_by_path document path with
  | .ok v => v
  | .error _ => dflt

/-- True when get_by_path raises on this document and path. -/
def read_fails (document : Doc) (path : List String) : Bool :=
  match get_by_path document path with
  | .ok _ => false
  | .error _ => true

/-- Increment.__call__ (transforms.py lines 89-100): current value (default 0)
plus the operand; the addition itself is outside the try block. -/
def increment_call (b : Bool) (n : Int) (document : Doc) (path : List String) :
    Except PyErr Value :=
  pyAdd (get_or_default document path (.num false 0)) (.num b n)

/-- ArrayUnion.__call__ (transforms.py lines 39-50): current value (default
empty list) concatenated with the operand list, no deduplication. -/
def array_union_call (vs : List Value) (document : Doc) (path : List String) :
    Except PyErr Value :=
  pyAdd (get_or_default document path (.arr [])) (.arr vs)

/-- ArrayRemove.__call__ (transforms.py lines 53-65):
list(set(item).difference(set(values))) with default empty list; set
construction iterates the current value (list elements, string characters,
dict keys) and raises TypeError when it is not iterable or an involved
element is unhashable; elements are identified under Python ==. -/
def array_remove_call (vs : List Value) (document : Doc) (path : List String) :
    Except PyErr Value :=
  match iterElems (get_or_default document path (.arr [])) with
  | some xs =>
    if (xs ++ vs).all hashable then
      .ok (.arr ((dedupPy xs).filter (fun x => !(pyMemB x vs))))
    else .error .typeError
  | none => .error .typeError

/-- Maximum.__call__ (transforms.py lines 103-117): max of current and operand
when the current value exists and is numeric, the operand otherwise. -/
def maximum_call (b : Bool) (n : Int) (document : Doc) (path : List String) :
    Value :=
  match get_by_path document path with
  | .ok item => if isNumeric item then pyMax item (.num b n) else .num b n
  | .error _ => .num b n

/-- Minimum.__call__ (transforms.py lines 120-134), symmetric to Maximum. -/
def minimum_call (b : Bool) (n : Int) (document : Doc) (path : List String) :
    Value :=
  match get_by_path document path with
  | .ok item => if isNumeric item then pyMin item (.num b n) else .num b n
  | .error _ => .num b n

/-- _ValueList.__init__ (transforms.py lines 21-28): the operand must be a
non-empty sequence, ValueError otherwise.  The spec names this failure
InvalidOperand. -/
def value_list_init : Value → Except PyErr (List Value)
  | .arr vs => if vs.isEmpty then .error .valueError else .ok vs
  | _ => .error .valueError

/-- _NumericValue.__init__ (transforms.py lines 74-78): the operand must
satisfy isinstance(value, (int, float)), ValueError otherwise; Python bools
pass the check (bool is an int subclass) and behave as their integer value.
The spec names this failure InvalidOperand. -/
def numeric_value_init : Value → Except PyErr (Bool × Int)
  | .num b v => .ok (b, v)
  | .boolV b => .ok (false, boolInt b)
  | _ => .error .valueError

/-- Construct an ArrayUnion instruction: validation happens at construction
time, before any merge. -/
def mkArrayUnion (v : Value) : Except PyErr Value :=
  (value_list_init v).map Value.tArrayUnion

/-- Construct an ArrayRemove instruction. -/
def mkArrayRemove (v : Value) : Except PyErr Value :=
  (value_list_init v).map Value.tArrayRemove

/-- Construct an Increment instruction. -/
def mkIncrement (v : Value) : Except PyErr Value :=
  (numeric_value_init v).map fun bn => Value.tIncrement bn.1 bn.2

/-- Construct a Maximum instruction. -/
def mkMaximum (v : Value) : Except PyErr Value :=
  (numeric_value_init v).map fun bn => Value.tMaximum bn.1 bn.2

/-- Construct a Minimum instruction. -/
def mkMinimum (v : Value) : Except PyErr Value :=
  (numeric_value_init v).map fun bn => Value.tMinimum bn.1 bn.2

/-- Polymorphic dispatch of a transform instruction to its __call__ method;
non-instructions are left untouched (never dispatched by the engine). -/
def transform_call (t : Value) (document : Doc) (path : List String) :
    Except PyErr Value :=
  match t with
  | .tIncrement b n => increment_call b n document path
  | .tMaximum b n => .ok (maximum_call b n document path)
  | .tMinimum b n => .ok (minimum_call b n document path)
  | .tArrayUnion vs => array_union_call vs document path
  | .tArrayRemove vs => array_remove_call vs document path
  | v => .ok v

/-- Classification of an Increment instruction into the auxiliary increments
dict (transforms.py lines 167-168): the raw operand is recorded under the
dotted key. -/
def classify_increment (incs : List (String × Value)) (key : String)
    (value : Value) : List (String × Value) :=
  match value with
  | .tIncrement b n => setKey incs key (.num b n)
  | _ => incs

/-- Classification of an ArrayUnion instruction into the auxiliary arr_unions
dict (transforms.py lines 169-170). -/
def classify_array_union (unions : List (String × Value)) (key : String)
    (value : Value) : List (String × Value) :=
  match value with
  | .tArrayUnion vs => setKey unions key (.arr vs)
  | _ => unions

/-- The main loop of _apply_transformations (transforms.py lines 142-170):
for each flattened payload entry, apply a transform instruction generically
and write the result back into the payload at the split path, while
classifying Increment and ArrayUnion operands into the two auxiliary dicts. -/
def run_transform_loop (document : Doc) :
    List (String × Value) → Doc → List (String × Value) → List (String × Value) →
    Except PyErr (Doc × List (String × Value) × List (String × Value))
  | [], data, incs, unions => .ok (data, incs, unions)
  | (key, value) :: rest, data, incs, unions =>
    if isTransform value then
      match transform_call value document (splitDots key) with
      | .error e => .error e
      | .ok v =>
        match set_by_path data (splitDots key) v with
        | .error e => .error e
        | .ok data2 =>
          run_transform_loop document rest data2 (classify_increment incs key value)
            (classify_array_union unions key value)
    else
      run_transform_loop document rest data (classify_increment incs key value)
        (classify_array_union unions key value)

/-- _update_data_with_firestore_transforms (transforms.py lines 165-175): for
each recorded operand, re-read the original document at the split path
(falling back to the given default on TypeError or KeyError), add the operand
and write the sum into the payload.  The addition and the payload write are
outside the try block. -/
def update_data_with_firestore_transforms (document : Doc) (dflt : Value) :
    List (String × Value) → Doc → Except PyErr Doc
  | [], data => .ok data
  | (key, opv) :: rest, data =>
    match pyAdd (get_or_default document (splitDots key) dflt) opv with
    | .error e => .error e
    | .ok v =>
      match set_by_path data (splitDots key) v with
      | .error e => .error e
      | .ok data2 => update_data_with_firestore_transforms document dflt rest data2

/-- Python dict.update: fold the payload's top-level bindings into the
document, last write per key winning. -/
def dict_update (document data : Doc) : Doc :=
  data.foldl (fun d kv => setKey d kv.1 kv.2) document

/-- _apply_transformations (transforms.py lines 137-180): flatten the payload,
run the generic transform pass with classification, run the two dedicated
Increment and ArrayUnion passes (defaults 0 and empty list) over the payload,
then merge the payload into the document.  The merged document is returned
(the original mutates it in place; it is only mutated by the final
document.update, so an error before that point leaves it untouched). -/
def apply_transformations (document data : Doc) : Except PyErr Doc :=
  match run_transform_loop document (get_document_iterator "" data) data [] [] with
  | .error e => .error e
  | .ok (data1, incs, unions) =>
    match update_data_with_firestore_transforms document (.num false 0) incs data1 with
    | .error e => .error e
    | .ok data2 =>
      match update_data_with_firestore_transforms document (.arr []) unions data2 with
      | .error e => .error e
      | .ok data3 => .ok (dict_update document data3)

/-- Modelled from the spec: the single-pass engine the spec compares the
dual-pass engine against (spec 4.4 step 3 and 9): flatten the payload, apply
every transform generically once, merge; no dedicated second pass. -/
def single_pass_merge (document data : Doc) : Except PyErr Doc :=
  match run_transform_loop document (get_document_iterator "" data) data [] [] with
  | .error e => .error e
  | .ok (data1, _, _) => .ok (dict_update document data1)

/-- Two paths are independent when neither is a segment-wise prefix of the
other; a payload whose transform paths are pairwise independent has no
aliasing between a literal dotted key and nested keys. -/
def indepPaths (p q : List String) : Bool := !(p.isPrefixOf q) && !(q.isPrefixOf p)

/-- The split paths of the transform-bearing leaves of a flattened payload. -/
def transform_paths (items : List (String × Value)) : List (List String) :=
  items.filterMap fun kv => if isTransform kv.2 then some (splitDots kv.1) else none

/-- One auxiliary-dict entry is recomputed consistently: adding its recorded
operand to the document's original value (with the pass's default) succeeds
and yields exactly the value the payload already holds at the entry's path. -/
def entry_recomputed (document : Doc) (dflt : Value) (data : Doc)
    (e : String × Value) : Prop :=
  ∃ v, pyAdd (get_or_default document (splitDots e.1) dflt) e.2 = .ok v ∧
    get_by_path data (splitDots e.1) = .ok v

theorem lookup_setKey_self (m : Doc) (k : String) (v : Value) :
    lookup (setKey m k v) k = some v := by
  induction m with
  | nil => simp [setKey, lookup]
  | cons hd tl ih =>
    obtain ⟨k1, w⟩ := hd
    by_cases h : k1 = k <;> simp [setKey, lookup, h, ih]

theorem lookup_setKey_ne (m : Doc) (k k2 : String) (v : Value) (h : k2 ≠ k) :
    lookup (setKey m k v) k2 = lookup m k2 := by
  have h2 : ¬ k = k2 := fun he => h he.symm
  induction m with
  | nil => simp [setKey, lookup, h2]
  | cons hd tl ih =>
    obtain ⟨k1, w⟩ := hd
    by_cases h1 : k1 = k
    · subst h1
      simp [setKey, lookup, h2]
    · simp [setKey, lookup, h1, ih]

theorem setKey_of_lookup (m : Doc) (k : String) (v : Value)
    (h : lookup m k = some v) : setKey m k v = m := by
  induction m with
  | nil => simp [lookup] at h
  | cons hd tl ih =>
    obtain ⟨k1, w⟩ := hd
    by_cases h1 : k1 = k
    · subst h1
      simp [lookup] at h
      simp [setKey, h]
    · simp [lookup, h1] at h
      simp [setKey, h1, ih h]

theorem mem_setKey (m : Doc) (k : String) (v : Value) (e : String × Value)
    (h : e ∈ setKey m k v) : e = (k, v) ∨ e ∈ m := by
  induction m with
  | nil => simp [setKey] at h; simp [h]
  | cons hd tl ih =>
    obtain ⟨k1, w⟩ := hd
    by_cases h1 : k1 = k
    · subst h1
      simp [setKey] at h
      rcases h with h | h
      · exact Or.inl h
      · exact Or.inr (List.mem_cons_of_mem _ h)
    · simp [setKey, h1] at h
      rcases h with h | h
      · simp [h]
      · rcases ih h with h2 | h2
        · exact Or.inl h2
        · exact Or.inr (List.mem_cons_of_mem _ h2)

theorem splitDotsAux_ne_nil (cs acc : List Char) : splitDotsAux cs acc ≠ [] := by
  induction cs generalizing acc with
  | nil => simp [splitDotsAux]
  | cons c rest ih =>
    by_cases h : c = '.' <;> simp [splitDotsAux, h, ih]

theorem splitDots_ne_nil (s : String) : splitDots s ≠ [] :=
  splitDotsAux_ne_nil s.data []

theorem indepPaths_ne_nil (p q : List String) (h : indepPaths p q = true) :
    p ≠ [] ∧ q ≠ [] := by
  constructor <;> rintro rfl <;> simp [indepPaths, List.isPrefixOf] at h

theorem indepPaths_cons (k : String) (p q : List String)
    (h : indepPaths (k :: p) (k :: q) = true) : indepPaths p q = true := by
  simp [indepPaths, List.isPrefixOf] at h ⊢
  exact ⟨h.1, h.2⟩

theorem get_by_path_set_by_path_self (p : List String) (m m2 : Doc) (v : Value)
    (h : set_by_path m p v = .ok m2) : get_by_path m2 p = .ok v := by
  induction p generalizing m m2 with
  | nil => simp [set_by_path] at h
  | cons k rest ih =>
    cases rest with
    | nil =>
      simp [set_by_path] at h
      subst h
      simp [get_by_path, get_by_path_v, lookup_setKey_self]
    | cons k2 rest2 =>
      simp only [set_by_path] at h
      split at h
      · rename_i sub hl
        split at h
        · rename_i sub2 hs
          simp at h
          subst h
          simpa [get_by_path, get_by_path_v, lookup_setKey_self] using ih _ _ hs
        · simp at h
      · simp at h
      · rename_i hl
        split at h
        · rename_i sub2 hs
          simp at h
          subst h
          simpa [get_by_path, get_by_path_v, lookup_setKey_self] using ih _ _ hs
        · simp at h

theorem get_by_path_nil (p : List String) (h : p ≠ []) :
    get_by_path [] p = .error .keyError := by
  cases p with
  | nil => exact absurd rfl h
  | cons k rest => simp [get_by_path, get_by_path_v, lookup]

theorem get_by_path_set_by_path_indep (q p : List String) (m m2 : Doc) (v : Value)
    (hind : indepPaths p q = true) (h : set_by_path m q v = .ok m2) :
    get_by_path m2 p = get_by_path m p := by
  induction q generalizing m m2 p with
  | nil => simp [set_by_path] at h
  | cons kq qrest ih =>
    obtain ⟨hp, _⟩ := indepPaths_ne_nil p (kq :: qrest) hind
    obtain ⟨kp, p2, rfl⟩ := List.exists_cons_of_ne_nil hp
    cases qrest with
    | nil =>
      simp [set_by_path] at h
      subst h
      by_cases hk : kp = kq
      · subst hk
        simp [indepPaths, List.isPrefixOf] at hind
      · simp [get_by_path, get_by_path_v, lookup_setKey_ne _ _ _ _ hk]
    | cons kq2 qrest2 =>
      simp only [set_by_path] at h
      by_cases hk : kp = kq
      · subst hk
        have hind2 : indepPaths p2 (kq2 :: qrest2) = true := by
          cases p2 with
          | nil => simp [indepPaths, List.isPrefixOf] at hind
          | cons a b => exact indepPaths_cons _ _ _ hind
        split at h
        · rename_i sub hl
          split at h
          · rename_i sub2 hs
            simp at h
            subst h
            simp [get_by_path, get_by_path_v, lookup_setKey_self, hl]
            exact ih _ _ _ hind2 hs
          · simp at h
        · simp at h
        · rename_i hl
          split at h
          · rename_i sub2 hs
            simp at h
            subst h
            simp [get_by_path, get_by_path_v, lookup_setKey_self, hl]
            have h2 := ih _ _ _ hind2 hs
            rw [get_by_path_nil _ (indepPaths_ne_nil _ _ hind2).1] at h2
            exact h2
          · simp at h
      · have hm2 : ∃ w, m2 = setKey m kq w := by
          split at h
          · split at h
            · simp at h
              exact ⟨_, h.symm⟩
            · simp at h
          · simp at h
          · split at h
            · simp at h
              exact ⟨_, h.symm⟩
            · simp at h
        obtain ⟨w, rfl⟩ := hm2
        simp [get_by_path, get_by_path_v, lookup_setKey_ne _ _ _ _ hk]

theorem set_by_path_of_get_by_path (p : List String) (m : Doc) (v : Value)
    (hp : p ≠ []) (h : get_by_path m p = .ok v) : set_by_path m p v = .ok m := by
  induction p generalizing m with
  | nil => exact absurd rfl hp
  | cons k rest ih =>
    cases rest with
    | nil =>
      simp only [get_by_path, get_by_path_v] at h
      cases hl : lookup m k with
      | some w =>
        rw [hl] at h
        simp [get_by_path_v] at h
        subst h
        simp [set_by_path, setKey_of_lookup _ _ _ hl]
      | none => rw [hl] at h; simp at h
    | cons k2 rest2 =>
      simp only [get_by_path, get_by_path_v] at h
      cases hl : lookup m k with
      | some w =>
        rw [hl] at h
        cases w
        case map sub =>
          simp [get_by_path_v] at h
          have h2 := ih sub (by simp) h
          simp only [set_by_path, hl, h2, setKey_of_lookup _ _ _ hl]
        all_goals simp [get_by_path_v] at h
      | none => rw [hl] at h; simp at h

theorem pyEq_refl (a : Value) : pyEq a a = true := by
  simp [pyEq]

theorem pyMemB_iff (x : Value) (l : List Value) :
    pyMemB x l = true ↔ ∃ y ∈ l, pyNormalize x = pyNormalize y := by
  simp [pyMemB, List.any_eq_true, pyEq]

theorem pyMemB_cons (x a : Value) (l : List Value) :
    pyMemB x (a :: l) = (pyEq x a || pyMemB x l) := by
  simp [pyMemB]

theorem dedupPyAux_subset (l : List Value) :
    ∀ (seen : List Value) (y : Value), y ∈ dedupPyAux seen l → y ∈ l := by
  induction l with
  | nil => intro seen y h; simp [dedupPyAux] at h
  | cons x xs ih =>
    intro seen y h
    by_cases hx : pyMemB x seen = true
    · simp only [dedupPyAux, hx, if_true] at h
      exact List.mem_cons_of_mem _ (ih seen y h)
    · simp only [dedupPyAux, hx, if_false, Bool.false_eq_true] at h
      rcases List.mem_cons.mp h with rfl | h2
      · exact List.mem_cons_self _ _
      · exact List.mem_cons_of_mem _ (ih (x :: seen) y h2)

theorem dedupPyAux_complete (l : List Value) :
    ∀ (seen : List Value) (y : Value), y ∈ l →
    pyMemB y (dedupPyAux seen l) = true ∨ pyMemB y seen = true := by
  induction l with
  | nil => intro seen y h; simp at h
  | cons x xs ih =>
    intro seen y h
    by_cases hx : pyMemB x seen = true
    · simp only [dedupPyAux, hx, if_true]
      rcases List.mem_cons.mp h with rfl | h2
      · exact Or.inr hx
      · exact ih seen y h2
    · simp only [dedupPyAux, hx, if_false, Bool.false_eq_true]
      rcases List.mem_cons.mp h with rfl | h2
      · exact Or.inl (by simp [pyMemB_cons, pyEq_refl])
      · rcases ih (x :: seen) y h2 with h3 | h3
        · exact Or.inl (by simp [pyMemB_cons, h3])
        · rw [pyMemB_cons] at h3
          rcases Bool.or_eq_true_iff.mp h3 with h4 | h4
          · exact Or.inl (by simp [pyMemB_cons, h4])
          · exact Or.inr h4

theorem dedupPyAux_pairwise (l : List Value) :
    ∀ seen : List Value,
    (dedupPyAux seen l).Pairwise (fun a b => pyEq a b = false) ∧
    (∀ z ∈ dedupPyAux seen l, pyMemB z seen = false) := by
  induction l with
  | nil => intro seen; simp [dedupPyAux]
  | cons x xs ih =>
    intro seen
    by_cases hx : pyMemB x seen = true
    · simpa only [dedupPyAux, hx, if_true] using ih seen
    · have hxf : pyMemB x seen = false := by simpa using hx
      simp only [dedupPyAux, hx, if_false, Bool.false_eq_true]
      have hrest := ih (x :: seen)
      have hrest2 : ∀ z ∈ dedupPyAux (x :: seen) xs,
          pyEq z x = false ∧ pyMemB z seen = false := by
        intro z hz
        have h2 := hrest.2 z hz
        rw [pyMemB_cons] at h2
        exact ⟨(Bool.or_eq_false_iff.mp h2).1, (Bool.or_eq_false_iff.mp h2).2⟩
      refine ⟨List.pairwise_cons.mpr ⟨?_, hrest.1⟩, ?_⟩
      · intro z hz
        have h3 := (hrest2 z hz).1
        simp only [pyEq, decide_eq_false_iff_not] at h3 ⊢
        exact fun he => h3 he.symm
      · intro z hz
        rcases List.mem_cons.mp hz with rfl | h2
        · exact hxf
        · exact (hrest2 z h2).2

theorem pairwise_pyEq_nodup (r : List Value)
    (h : r.Pairwise (fun a b => pyEq a b = false)) : r.Nodup :=
  h.imp fun hab heq => by subst heq; simp [pyEq_refl] at hab

/-- C1: for every document and every path absent from it (the read raises),
Increment(n) applied there returns n; for a numeric current value c stored at
the path, Increment(n) returns c + n, and the result's is-float tag is set iff
at least one of c and n carries the float tag (numeric promotion). -/
theorem increment_call_correct (D : Doc) (P : List String) (b : Bool) (n : Int) :
    (read_fails D P = true → increment_call b n D P = .ok (.num b n)) ∧
    (∀ bc c, get_by_path D P = .ok (.num bc c) →
      increment_call b n D P = .ok (.num (bc || b) (c + n))) := by
  constructor
  · intro h
    simp only [read_fails] at h
    cases hr : get_by_path D P with
    | ok w => rw [hr] at h; simp at h
    | error e => simp [increment_call, get_or_default, hr, pyAdd]
  · intro bc c hr
    simp [increment_call, get_or_default, hr, pyAdd]

theorem increment_call_correct_witness :
    increment_call true 2 [("x", .num false 3)] ["y"] = .ok (.num true 2) ∧
    increment_call true 2 [("x", .num false 3)] ["x"] = .ok (.num true 5) :=
  ⟨(increment_call_correct [("x", .num false 3)] ["y"] true 2).1 (by decide),
   (increment_call_correct [("x", .num false 3)] ["x"] true 2).2 false 3 (by decide)⟩

/-- C2: for a current list value at the target path, ArrayUnion(values)
returns exactly the concatenation current ++ values (length grows by the
operand's length, duplicates are not removed); on an absent path the current
value is treated as the empty list and the result is the operand list. -/
theorem array_union_call_correct (D : Doc) (P : List String) (vs : List Value) :
    (∀ cur, get_by_path D P = .ok (.arr cur) →
      array_union_call vs D P = .ok (.arr (cur ++ vs)) ∧
      (cur ++ vs).length = cur.length + vs.length) ∧
    (read_fails D P = true → array_union_call vs D P = .ok (.arr vs)) := by
  constructor
  · intro cur hr
    simp [array_union_call, get_or_default, hr, pyAdd]
  · intro h
    simp only [read_fails] at h
    cases hr : get_by_path D P with
    | ok w => rw [hr] at h; simp at h
    | error e => simp [array_union_call, get_or_default, hr, pyAdd]

theorem array_union_call_correct_witness :
    array_union_call [.str "x"] [("t", .arr [.str "x"])] ["t"] =
      .ok (.arr [.str "x", .str "x"]) ∧
    array_union_call [.str "x"] [("t", .arr [.str "x"])] ["u"] =
      .ok (.arr [.str "x"]) :=
  ⟨((array_union_call_correct [("t", .arr [.str "x"])] ["t"] [.str "x"]).1
      [.str "x"] (by decide)).1,
   (array_union_call_correct [("t", .arr [.str "x"])] ["u"] [.str "x"]).2 (by decide)⟩

/-- C3: for a current list of hashable elements, ArrayRemove(values) returns a
collection equal as a Python set to the set difference current minus values:
membership is stated under Python ==, which a Python set uses and which
identifies 1, 1.0 and True (the embedding fixes one iteration order, a set's
order being unspecified); on an absent path the current value is treated as
the empty list; a non-hashable element (nested list or mapping) makes the
call fail. -/
theorem array_remove_call_correct (D : Doc) (P : List String) (vs : List Value) :
    (∀ cur, get_by_path D P = .ok (.arr cur) → (cur ++ vs).all hashable = true →
      ∃ r, array_remove_call vs D P = .ok (.arr r) ∧
        ∀ x : Value, pyMemB x r = true ↔
          (pyMemB x cur = true ∧ pyMemB x vs = false)) ∧
    (read_fails D P = true → vs.all hashable = true →
      array_remove_call vs D P = .ok (.arr [])) ∧
    (∀ cur, get_by_path D P = .ok (.arr cur) → (cur ++ vs).all hashable = false →
      array_remove_call vs D P = .error .typeError) := by
  refine ⟨?_, ?_, ?_⟩
  · intro cur hr hall
    refine ⟨(dedupPy cur).filter (fun x => !(pyMemB x vs)), ?_, ?_⟩
    · simp [array_remove_call, get_or_default, hr, iterElems, hall]
    · intro x
      constructor
      · intro hx
        obtain ⟨y, hy, hNxy⟩ := (pyMemB_iff x _).mp hx
        have hyf := List.mem_filter.mp hy
        have hycur : y ∈ cur := dedupPyAux_subset cur [] y hyf.1
        refine ⟨(pyMemB_iff x cur).mpr ⟨y, hycur, hNxy⟩, ?_⟩
        by_contra hc
        have hx2 : pyMemB x vs = true := by simpa using hc
        obtain ⟨w, hw, hNxw⟩ := (pyMemB_iff x vs).mp hx2
        have hyvs : pyMemB y vs = true :=
          (pyMemB_iff y vs).mpr ⟨w, hw, by rw [← hNxy]; exact hNxw⟩
        simp [hyvs] at hyf
      · rintro ⟨hcur, hnvs⟩
        obtain ⟨y, hy, hNxy⟩ := (pyMemB_iff x cur).mp hcur
        rcases dedupPyAux_complete cur [] y hy with hmem | habs
        · obtain ⟨z, hz, hNyz⟩ := (pyMemB_iff y _).mp hmem
          have hNxz : pyNormalize x = pyNormalize z := hNxy.trans hNyz
          have hzvs : pyMemB z vs = false := by
            by_contra hc
            have hz2 : pyMemB z vs = true := by simpa using hc
            obtain ⟨w, hw, hNzw⟩ := (pyMemB_iff z vs).mp hz2
            have : pyMemB x vs = true :=
              (pyMemB_iff x vs).mpr ⟨w, hw, hNxz.trans hNzw⟩
            rw [this] at hnvs
            exact Bool.noConfusion hnvs
          have hzr : z ∈ (dedupPy cur).filter (fun x => !(pyMemB x vs)) :=
            List.mem_filter.mpr ⟨hz, by simp [hzvs]⟩
          exact (pyMemB_iff x _).mpr ⟨z, hzr, hNxz⟩
        · simp [pyMemB] at habs
  · intro h hall
    simp only [read_fails] at h
    cases hr : get_by_path D P with
    | ok w => rw [hr] at h; simp at h
    | error e =>
      simp [array_remove_call, get_or_default, hr, iterElems, hall, dedupPy,
        dedupPyAux]
  · intro cur hr hall
    simp [array_remove_call, get_or_default, hr, iterElems, hall]

theorem array_remove_call_correct_witness :
    (∃ r, array_remove_call [.str "y"] [("t", .arr [.str "x", .str "y"])] ["t"] =
        .ok (.arr r) ∧
      ∀ x : Value, pyMemB x r = true ↔
        (pyMemB x [Value.str "x", Value.str "y"] = true ∧
          pyMemB x [Value.str "y"] = false)) ∧
    array_remove_call [.str "y"] [("t", .arr [.str "x", .str "y"])] ["u"] =
      .ok (.arr []) ∧
    array_remove_call [.str "y"] [("t", .arr [.map [("k", .num false 1)]])] ["t"] =
      .error .typeError ∧
    array_remove_call [.num true 1] [("t", .arr [.num false 1])] ["t"] =
      .ok (.arr []) ∧
    array_remove_call [.num false 1] [("t", .arr [.boolV true])] ["t"] =
      .ok (.arr []) :=
  ⟨(array_remove_call_correct [("t", .arr [.str "x", .str "y"])] ["t"] [.str "y"]).1
      [.str "x", .str "y"] (by decide) (by decide),
   (array_remove_call_correct [("t", .arr [.str "x", .str "y"])] ["u"] [.str "y"]).2.1
      (by decide) (by decide),
   (array_remove_call_correct [("t", .arr [.map [("k", .num false 1)]])] ["t"]
      [.str "y"]).2.2 [.map [("k", .num false 1)]] (by decide) (by decide),
   by decide, by decide⟩

/-- C4: with a numeric current value c at the path, Maximum(n) returns a
numeric value of magnitude max c n and Minimum(n) one of magnitude min c n;
when the path is absent or the current value is non-numeric, both return the
operand n unchanged (the current value is overwritten, not compared). -/
theorem maximum_minimum_call_correct (D : Doc) (P : List String) (b : Bool) (n : Int) :
    (∀ bc c, get_by_path D P = .ok (.num bc c) →
      (∃ br, maximum_call b n D P = .num br (max c n)) ∧
      (∃ br, minimum_call b n D P = .num br (min c n))) ∧
    (read_fails D P = true →
      maximum_call b n D P = .num b n ∧ minimum_call b n D P = .num b n) ∧
    (∀ w, get_by_path D P = .ok w → isNumeric w = false →
      maximum_call b n D P = .num b n ∧ minimum_call b n D P = .num b n) := by
  refine ⟨?_, ?_, ?_⟩
  · intro bc c hr
    constructor
    · by_cases hcn : c < n
      · exact ⟨b, by simp [maximum_call, hr, isNumeric, pyMax, numVal, hcn,
          max_eq_right hcn.le]⟩
      · exact ⟨bc, by simp [maximum_call, hr, isNumeric, pyMax, numVal, hcn,
          max_eq_left (not_lt.mp hcn)]⟩
    · by_cases hnc : n < c
      · exact ⟨b, by simp [minimum_call, hr, isNumeric, pyMin, numVal, hnc,
          min_eq_right hnc.le]⟩
      · exact ⟨bc, by simp [minimum_call, hr, isNumeric, pyMin, numVal, hnc,
          min_eq_left (not_lt.mp hnc)]⟩
  · intro h
    simp only [read_fails] at h
    cases hr : get_by_path D P with
    | ok w => rw [hr] at h; simp at h
    | error e => simp [maximum_call, minimum_call, hr]
  · intro w hr hw
    simp [maximum_call, minimum_call, hr, hw]

theorem maximum_minimum_call_correct_witness :
    (∃ br, maximum_call false 5 [("c", .num false 7)] ["c"] = .num br (max 7 5)) ∧
    (∃ br, minimum_call false 5 [("c", .num false 7)] ["c"] = .num br (min 7 5)) ∧
    maximum_call false 5 [("c", .num false 7)] ["d"] = .num false 5 ∧
    maximum_call false 5 [("c", .str "s")] ["c"] = .num false 5 :=
  ⟨((maximum_minimum_call_correct [("c", .num false 7)] ["c"] false 5).1
      false 7 (by decide)).1,
   ((maximum_minimum_call_correct [("c", .num false 7)] ["c"] false 5).1
      false 7 (by decide)).2,
   ((maximum_minimum_call_correct [("c", .num false 7)] ["d"] false 5).2.1
      (by decide)).1,
   ((maximum_minimum_call_correct [("c", .str "s")] ["c"] false 5).2.2
      (.str "s") (by decide) (by decide)).1⟩

/-- C7: constructing ArrayUnion or ArrayRemove from an empty list fails at
construction time with the invalid-operand error (ValueError), and
constructing Increment, Maximum or Minimum from a non-numeric operand
(isinstance(value, (int, float)) false) fails the same way; valid operands
construct the instruction, all before any merge is attempted. -/
theorem construction_validation :
    mkArrayUnion (.arr []) = .error .valueError ∧
    mkArrayRemove (.arr []) = .error .valueError ∧
    (∀ v, isNumeric v = false →
      mkIncrement v = .error .valueError ∧ mkMaximum v = .error .valueError ∧
      mkMinimum v = .error .valueError) ∧
    (∀ vs, vs ≠ [] →
      mkArrayUnion (.arr vs) = .ok (.tArrayUnion vs) ∧
      mkArrayRemove (.arr vs) = .ok (.tArrayRemove vs)) ∧
    (∀ b n, mkIncrement (.num b n) = .ok (.tIncrement b n) ∧
      mkMaximum (.num b n) = .ok (.tMaximum b n) ∧
      mkMinimum (.num b n) = .ok (.tMinimum b n)) := by
  refine ⟨by decide, by decide, ?_, ?_, ?_⟩
  · intro v hv
    cases v <;> simp_all [mkIncrement, mkMaximum, mkMinimum, numeric_value_init,
      isNumeric, Except.map]
  · intro vs hvs
    simp [mkArrayUnion, mkArrayRemove, value_list_init, hvs, Except.map]
  · intro b n
    simp [mkIncrement, mkMaximum, mkMinimum, numeric_value_init, Except.map]

theorem construction_validation_witness :
    mkIncrement (.str "s") = .error .valueError ∧
    mkArrayUnion (.arr [.num false 1]) = .ok (.tArrayUnion [.num false 1]) ∧
    mkIncrement (.num true 2) = .ok (.tIncrement true 2) :=
  ⟨(construction_validation.2.2.1 (.str "s") (by decide)).1,
   (construction_validation.2.2.2.1 [.num false 1] (by decide)).1,
   (construction_validation.2.2.2.2 true 2).1⟩

/-- C10: applied over a current list with duplicate elements, ArrayRemove
collapses the duplicates (the list passes through a set, which identifies
elements under Python ==): every element of the result appears in it exactly
once, and no two result elements are even Python-equal, whether or not any
removal operand matched them. -/
theorem array_remove_collapses_duplicates (D : Doc) (P : List String)
    (vs cur : List Value) (hr : get_by_path D P = .ok (.arr cur))
    (hall : (cur ++ vs).all hashable = true) :
    ∃ r, array_remove_call vs D P = .ok (.arr r) ∧
      (∀ x ∈ r, r.count x = 1) ∧
      r.Pairwise (fun a b => pyEq a b = false) := by
  have hpw : ((dedupPy cur).filter (fun x => !(pyMemB x vs))).Pairwise
      (fun a b => pyEq a b = false) :=
    (dedupPyAux_pairwise cur []).1.filter _
  refine ⟨(dedupPy cur).filter (fun x => !(pyMemB x vs)), ?_, ?_, hpw⟩
  · simp [array_remove_call, get_or_default, hr, iterElems, hall]
  · intro x hx
    exact List.count_eq_one_of_mem (pairwise_pyEq_nodup _ hpw) hx

theorem array_remove_collapses_duplicates_witness :
    (∃ r, array_remove_call [.str "y"]
        [("t", .arr [.str "x", .str "x", .str "y"])] ["t"] = .ok (.arr r) ∧
      (∀ x ∈ r, r.count x = 1) ∧
      r.Pairwise (fun a b => pyEq a b = false)) ∧
    array_remove_call [.str "y"] [("t", .arr [.str "x", .str "x", .str "y"])]
      ["t"] = .ok (.arr [.str "x"]) ∧
    array_remove_call [.num false 2] [("t", .arr [.num false 1, .num true 1])]
      ["t"] = .ok (.arr [.num false 1]) :=
  ⟨array_remove_collapses_duplicates [("t", .arr [.str "x", .str "x", .str "y"])]
      ["t"] [.str "y"] [.str "x", .str "x", .str "y"] (by decide) (by decide),
   by decide, by decide⟩

/-- C8 (claimed result vs code): merging the payload with the single dotted
key "a.b" bound to Maximum(5) into the empty document produces the nested
binding of "a" to the mapping with "b" bound to 5, but the generic pass writes
only through the split path and never clears the literal dotted key, so the
merged document also retains "a.b" bound to the Maximum instruction object
itself; the claimed result, exactly one binding "a", is not produced. -/
theorem merge_dotted_key_keeps_transform_key :
    apply_transformations [] [("a.b", .tMaximum false 5)] =
      .ok [("a.b", .tMaximum false 5), ("a", .map [("b", .num false 5)])] ∧
    apply_transformations [] [("a.b", .tMaximum false 5)] ≠
      .ok [("a", .map [("b", .num false 5)])] := by decide

/-- C6 (amended): a TypeShapeError raised while reading the document's current
value at a transform's target path is caught by the variant's except clause
(transforms.py catches TypeError together with KeyError) and recovered as the
variant's absent-path default; the read error is not propagated. -/
theorem type_error_read_recovered (D : Doc) (P : List String) (b : Bool)
    (n : Int) (vs : List Value) (h : get_by_path D P = .error .typeError) :
    increment_call b n D P = .ok (.num b n) ∧
    array_union_call vs D P = .ok (.arr vs) ∧
    maximum_call b n D P = .num b n ∧
    minimum_call b n D P = .num b n ∧
    (vs.all hashable = true → array_remove_call vs D P = .ok (.arr [])) := by
  refine ⟨?_, ?_, ?_, ?_, ?_⟩
  · simp [increment_call, get_or_default, h, pyAdd]
  · simp [array_union_call, get_or_default, h, pyAdd]
  · simp [maximum_call, h]
  · simp [minimum_call, h]
  · intro hall
    simp [array_remove_call, get_or_default, h, hall, iterElems, dedupPy,
      dedupPyAux]

theorem type_error_read_recovered_witness :
    increment_call false 3 [("a", .num false 5)] ["a", "b"] = .ok (.num false 3) ∧
    array_union_call [.str "y"] [("a", .num false 5)] ["a", "b"] =
      .ok (.arr [.str "y"]) ∧
    maximum_call false 3 [("a", .num false 5)] ["a", "b"] = .num false 3 ∧
    minimum_call false 3 [("a", .num false 5)] ["a", "b"] = .num false 3 ∧
    ([Value.str "y"].all hashable = true →
      array_remove_call [.str "y"] [("a", .num false 5)] ["a", "b"] =
        .ok (.arr [])) :=
  type_error_read_recovered [("a", .num false 5)] ["a", "b"] false 3 [.str "y"]
    (by decide)

/-- C6 counterexample: the claim asserts that a merge in which resolving a
transform's target path traverses a non-mapping document segment aborts with
the propagated TypeShapeError.  On this input the read of path a.b traverses
the number stored at "a" (the TypeShapeError condition), yet the merge
completes: the increment is recovered as its absent-path default 0 and the
engine returns the merged document. -/
theorem type_error_merge_completes :
    get_by_path [("a", Value.num false 5)] ["a", "b"] = .error .typeError ∧
    apply_transformations [("a", .num false 5)] [("a.b", .tIncrement false 1)] =
      .ok [("a", .map [("b", .num false 1)]), ("a.b", .tIncrement false 1)] := by
  decide

theorem merge_single_array_union (D : Doc) (k : String) (vs cur : List Value)
    (hk : splitDots k = [k]) (hcur : lookup D k = some (.arr cur)) :
    apply_transformations D [(k, .tArrayUnion vs)] =
      .ok (setKey D k (.arr (cur ++ vs))) := by
  simp [apply_transformations, get_document_iterator, entry_iter, joinKey,
    run_transform_loop, isTransform, transform_call, array_union_call,
    get_or_default, get_by_path, get_by_path_v, hk, hcur, pyAdd, set_by_path,
    setKey, classify_increment, classify_array_union,
    update_data_with_firestore_transforms, dict_update]

/-- C9: running the merge twice with the same ArrayUnion instruction is not
idempotent: the first merge appends the operand list to the current array, the
second merge appends it again, so the second result differs from the first
(the array grows by the operand's length on every call). -/
theorem merge_array_union_not_idempotent (D : Doc) (k : String)
    (vs cur : List Value) (hk : splitDots k = [k]) (hvs : vs ≠ [])
    (hcur : lookup D k = some (.arr cur)) :
    ∃ d1 d2,
      apply_transformations D [(k, .tArrayUnion vs)] = .ok d1 ∧
      lookup d1 k = some (.arr (cur ++ vs)) ∧
      apply_transformations d1 [(k, .tArrayUnion vs)] = .ok d2 ∧
      lookup d2 k = some (.arr (cur ++ vs ++ vs)) ∧
      cur ++ vs ++ vs ≠ cur ++ vs := by
  refine ⟨setKey D k (.arr (cur ++ vs)),
    setKey (setKey D k (.arr (cur ++ vs))) k (.arr (cur ++ vs ++ vs)),
    merge_single_array_union D k vs cur hk hcur, lookup_setKey_self _ _ _,
    ?_, lookup_setKey_self _ _ _, ?_⟩
  · exact merge_single_array_union _ k vs (cur ++ vs) hk (lookup_setKey_self _ _ _)
  · intro hcontra
    have hlen := congrArg List.length hcontra
    simp [List.length_append] at hlen
    exact hvs hlen

theorem merge_array_union_not_idempotent_witness :
    ∃ d1 d2,
      apply_transformations [("tags", .arr [.str "x"])]
        [("tags", .tArrayUnion [.str "y"])] = .ok d1 ∧
      lookup d1 "tags" = some (.arr ([Value.str "x"] ++ [Value.str "y"])) ∧
      apply_transformations d1 [("tags", .tArrayUnion [.str "y"])] = .ok d2 ∧
      lookup d2 "tags" =
        some (.arr ([Value.str "x"] ++ [Value.str "y"] ++ [Value.str "y"])) ∧
      [Value.str "x"] ++ [Value.str "y"] ++ [Value.str "y"] ≠
        [Value.str "x"] ++ [Value.str "y"] :=
  merge_array_union_not_idempotent [("tags", .arr [.str "x"])] "tags"
    [.str "y"] [.str "x"] (by decide) (by decide) (by decide)

theorem mem_classify_increment (incs : List (String × Value)) (key : String)
    (value : Value) (e : String × Value)
    (h : e ∈ classify_increment incs key value) :
    e ∈ incs ∨ ∃ b n, value = .tIncrement b n ∧ e = (key, .num b n) := by
  cases value <;> simp only [classify_increment] at h <;>
    first
      | exact Or.inl h
      | (rcases mem_setKey _ _ _ _ h with h2 | h2
         · exact Or.inr ⟨_, _, rfl, h2⟩
         · exact Or.inl h2)

theorem mem_classify_array_union (unions : List (String × Value)) (key : String)
    (value : Value) (e : String × Value)
    (h : e ∈ classify_array_union unions key value) :
    e ∈ unions ∨ ∃ vs, value = .tArrayUnion vs ∧ e = (key, .arr vs) := by
  cases value <;> simp only [classify_array_union] at h <;>
    first
      | exact Or.inl h
      | (rcases mem_setKey _ _ _ _ h with h2 | h2
         · exact Or.inr ⟨_, rfl, h2⟩
         · exact Or.inl h2)

theorem classify_increment_not_transform (incs : List (String × Value))
    (key : String) (value : Value) (h : isTransform value = false) :
    classify_increment incs key value = incs := by
  cases value <;> simp_all [classify_increment, isTransform]

theorem classify_array_union_not_transform (unions : List (String × Value))
    (key : String) (value : Value) (h : isTransform value = false) :
    classify_array_union unions key value = unions := by
  cases value <;> simp_all [classify_array_union, isTransform]

theorem transform_paths_cons_transform (key : String) (value : Value)
    (rest : List (String × Value)) (h : isTransform value = true) :
    transform_paths ((key, value) :: rest) =
      splitDots key :: transform_paths rest := by
  simp [transform_paths, h]

theorem transform_paths_cons_not_transform (key : String) (value : Value)
    (rest : List (String × Value)) (h : isTransform value = false) :
    transform_paths ((key, value) :: rest) = transform_paths rest := by
  simp [transform_paths, h]

theorem entry_recomputed_frame (document : Doc) (dflt : Value) (data data2 : Doc)
    (q : List String) (v : Value) (e : String × Value)
    (hset : set_by_path data q v = .ok data2)
    (hind : indepPaths (splitDots e.1) q = true)
    (h : entry_recomputed document dflt data e) :
    entry_recomputed document dflt data2 e := by
  obtain ⟨w, hadd, hget⟩ := h
  exact ⟨w, hadd, by rw [get_by_path_set_by_path_indep q _ _ _ _ hind hset]; exact hget⟩

theorem run_transform_loop_post (document : Doc)
    (items : List (String × Value)) :
    ∀ (data : Doc) (incs unions : List (String × Value)) (d1 : Doc)
      (incs2 unions2 : List (String × Value)),
    run_transform_loop document items data incs unions = .ok (d1, incs2, unions2) →
    (transform_paths items).Pairwise (fun p q => indepPaths p q = true) →
    (∀ e ∈ incs, entry_recomputed document (.num false 0) data e ∧
      ∀ q ∈ transform_paths items, indepPaths (splitDots e.1) q = true) →
    (∀ e ∈ unions, entry_recomputed document (.arr []) data e ∧
      ∀ q ∈ transform_paths items, indepPaths (splitDots e.1) q = true) →
    (∀ e ∈ incs2, entry_recomputed document (.num false 0) d1 e) ∧
    (∀ e ∈ unions2, entry_recomputed document (.arr []) d1 e) := by
  induction items with
  | nil =>
    intro data incs unions d1 incs2 unions2 h hpw hincs hunions
    simp [run_transform_loop] at h
    obtain ⟨rfl, rfl, rfl⟩ := h
    exact ⟨fun e he => (hincs e he).1, fun e he => (hunions e he).1⟩
  | cons item rest ih =>
    intro data incs unions d1 incs2 unions2 h hpw hincs hunions
    obtain ⟨key, value⟩ := item
    by_cases ht : isTransform value = true
    · rw [transform_paths_cons_transform key value rest ht] at hpw hincs hunions
      have hpw1 : ∀ q ∈ transform_paths rest, indepPaths (splitDots key) q = true :=
        (List.pairwise_cons.mp hpw).1
      have hpw2 := (List.pairwise_cons.mp hpw).2
      simp only [run_transform_loop, ht, if_true] at h
      split at h
      · simp at h
      · rename_i v hcall
        split at h
        · simp at h
        · rename_i data2 hset
          refine ih data2 _ _ d1 incs2 unions2 h hpw2 ?_ ?_
          · intro e he
            rcases mem_classify_increment incs key value e he with he2 | ⟨b, n, hv, rfl⟩
            · obtain ⟨hrec, hind⟩ := hincs e he2
              exact ⟨entry_recomputed_frame document _ data data2 _ v e hset
                  (hind _ (List.mem_cons_self _ _)) hrec,
                fun q hq => hind q (List.mem_cons_of_mem _ hq)⟩
            · subst hv
              refine ⟨⟨v, ?_, get_by_path_set_by_path_self _ _ _ _ hset⟩, hpw1⟩
              simpa [transform_call, increment_call] using hcall
          · intro e he
            rcases mem_classify_array_union unions key value e he with he2 | ⟨vs, hv, rfl⟩
            · obtain ⟨hrec, hind⟩ := hunions e he2
              exact ⟨entry_recomputed_frame document _ data data2 _ v e hset
                  (hind _ (List.mem_cons_self _ _)) hrec,
                fun q hq => hind q (List.mem_cons_of_mem _ hq)⟩
            · subst hv
              refine ⟨⟨v, ?_, get_by_path_set_by_path_self _ _ _ _ hset⟩, hpw1⟩
              simpa [transform_call, array_union_call] using hcall
    · have ht2 : isTransform value = false := by simpa using ht
      rw [transform_paths_cons_not_transform key value rest ht2] at hpw hincs hunions
      simp only [run_transform_loop, ht2, Bool.false_eq_true, if_false,
        classify_increment_not_transform incs key value ht2,
        classify_array_union_not_transform unions key value ht2] at h
      exact ih data incs unions d1 incs2 unions2 h hpw hincs hunions

theorem update_data_noop (document : Doc) (dflt : Value)
    (lst : List (String × Value)) :
    ∀ data : Doc, (∀ e ∈ lst, entry_recomputed document dflt data e) →
    update_data_with_firestore_transforms document dflt lst data = .ok data := by
  induction lst with
  | nil =>
    intro data h
    simp [update_data_with_firestore_transforms]
  | cons e rest ih =>
    intro data h
    obtain ⟨key, opv⟩ := e
    obtain ⟨v, hadd, hget⟩ := h _ (List.mem_cons_self _ _)
    have hset : set_by_path data (splitDots key) v = .ok data :=
      set_by_path_of_get_by_path _ _ _ (splitDots_ne_nil key) hget
    simp only [update_data_with_firestore_transforms, hadd, hset]
    exact ih data (fun e2 he2 => h _ (List.mem_cons_of_mem _ he2))

/-- C5 (amended): when the transform-bearing leaves of the flattened payload
lie at pairwise independent paths (no two equal and neither a segment-wise
prefix of the other, which excludes aliasing between a literal dotted key and
nested keys), the engine's second pass rewrites at every Increment and
ArrayUnion path exactly the value the generic first pass already wrote there,
so the dual-pass engine returns the same result as the single-pass engine.
Without that proviso the two engines are observably different. -/
theorem dual_pass_eq_single_pass (document data : Doc)
    (h : (transform_paths (get_document_iterator "" data)).Pairwise
      (fun p q => indepPaths p q = true)) :
    apply_transformations document data = single_pass_merge document data := by
  simp only [apply_transformations, single_pass_merge]
  cases hrun : run_transform_loop document (get_document_iterator "" data) data [] [] with
  | error e => rfl
  | ok triple =>
    obtain ⟨d1, incs, unions⟩ := triple
    have hpost := run_transform_loop_post document (get_document_iterator "" data)
      data [] [] d1 incs unions hrun h (by simp) (by simp)
    dsimp only
    rw [update_data_noop document (.num false 0) incs d1 hpost.1]
    dsimp only
    rw [update_data_noop document (.arr []) unions d1 hpost.2]

theorem dual_pass_eq_single_pass_witness :
    apply_transformations [("count", .num false 1), ("tags", .arr [.str "x"])]
      [("count", .tIncrement false 2), ("tags", .tArrayUnion [.str "y"])] =
    single_pass_merge [("count", .num false 1), ("tags", .arr [.str "x"])]
      [("count", .tIncrement false 2), ("tags", .tArrayUnion [.str "y"])] :=
  dual_pass_eq_single_pass [("count", .num false 1), ("tags", .arr [.str "x"])]
    [("count", .tIncrement false 2), ("tags", .tArrayUnion [.str "y"])] (by decide)

/-- C5 counterexample: the nested key "a" with leaf "b" and the literal dotted
key "a.b" alias the same path; the generic pass leaves the increment's value
(written last) at that path, while the dedicated passes rewrite the increment
first and the array union second, so the dual-pass engine and the single-pass
engine return observably different merged documents. -/
theorem dual_pass_single_pass_differ :
    apply_transformations []
      [("a", .map [("b", .tArrayUnion [.str "x"])]), ("a.b", .tIncrement false 1)] =
      .ok [("a", .map [("b", .arr [.str "x"])]), ("a.b", .tIncrement false 1)] ∧
    single_pass_merge []
      [("a", .map [("b", .tArrayUnion [.str "x"])]), ("a.b", .tIncrement false 1)] =
      .ok [("a", .map [("b", .num false 1)]), ("a.b", .tIncrement false 1)] ∧
    apply_transformations []
      [("a", .map [("b", .tArrayUnion [.str "x"])]), ("a.b", .tIncrement false 1)] ≠
    single_pass_merge []
      [("a", .map [("b", .tArrayUnion [.str "x"])]), ("a.b", .tIncrement false 1)] := by
  decide

end MockFirestore
